import Mathlib

/-!
Shallow embedding of `src/standings.py` (a terminal dashboard for a league
table with a per-team match view), together with theorems checking the
natural-language specification against it.

Conventions of the embedding:
* Python dataclasses become Lean structures; `@dataclass(frozen=True)`
  equality (field-wise) becomes derived `DecidableEq`.
* The Textual `DataTable` state relevant to the spec is the stored list of
  matches and the cursor row; `DataTable.clear()` (called by `update_data`)
  resets the cursor to row 0, which the embedding makes explicit.
* Textual reactive attributes invoke their `watch_` method only when the
  newly assigned value differs (`!=`) from the current one (the default
  `always_update = False` semantics); setters below model this with an
  equality test.
* `functools.cache` on `get_matches` becomes explicit cache state: an
  association list keyed by the whole `Team` argument (hash/eq of the
  dataclass), threaded through the calls, with the underlying HTTP fetch
  passed in as a fallible oracle `Team → Except String (List Match)`.
  A raised fetch error stores nothing, exactly as `functools.cache` does.
* `matches` is a reserved token in Lean, so the field appears as the escaped
  identifier `«matches»`.
-/

/-- `Team` dataclass (frozen): id, name, short_name, tla, crest.
Dataclass equality compares all five fields. -/
structure Team where
  id : String
  name : String
  short_name : String
  tla : String
  crest : String
deriving DecidableEq, Repr

/-- `Standing` dataclass: one league-table row. -/
structure Standing where
  position : Int
  team : Team
  played_games : Int
  form : String
  won : Int
  draw : Int
  lost : Int
  points : Int
  goals_for : Int
  goals_against : Int
  goal_difference : Int
deriving DecidableEq, Repr

/-- `ScoreSnapshot` dataclass: full-time goal counts. -/
structure ScoreSnapshot where
  home : Int
  away : Int
deriving DecidableEq, Repr

/-- `Score` dataclass: winner tag plus full-time snapshot. -/
structure Score where
  winner : String
  full_time : ScoreSnapshot
deriving DecidableEq, Repr

/-- `Score.home` property: reads `full_time.home`. -/
def Score.home (s : Score) : Int := s.full_time.home

/-- `Score.away` property: reads `full_time.away`. -/
def Score.away (s : Score) : Int := s.full_time.away

/-- `Match` dataclass. The payload's score object is meaningful only when
`status == "FINISHED"`; `score : Option Score` models a match whose payload
carries no usable score (as the data model allows for scheduled matches), so
that dereferencing the score of such a match is visibly fallible. -/
structure Match where
  id : String
  utc_date : String
  home_team : Team
  away_team : Team
  status : String
  matchday : Int
  score : Option Score
deriving DecidableEq, Repr

/-- `Match.finished` property: `status == 'FINISHED'`. -/
def Match.finished (m : Match) : Bool := m.status == "FINISHED"

/-- State of `MatchesTable` relevant to the spec: the stored match list
(`self.matches`) and the cursor row. Each match occupies two rendered rows. -/
structure MatchesTable where
  «matches» : List Match
  cursor_row : Nat
deriving DecidableEq, Repr

/-- `self.row_count`: two rows are added per match. -/
def MatchesTable.row_count (t : MatchesTable) : Nat := 2 * t.«matches».length

/-- `MatchesTable.update_data` state effect: stores the given matches and
clears the table; `DataTable.clear()` resets the cursor to row 0. -/
def MatchesTable.update_data (t : MatchesTable) (ms : List Match) : MatchesTable :=
  { t with «matches» := ms, cursor_row := 0 }

/-- The loop of `MatchesTable.scroll_to_unplayed`: walk the stored matches
with their indices; at the first unfinished match move the cursor to row
`idx * 2` provided that row exists, else keep scanning. Returns the target
row, or `none` when the cursor is not moved. -/
def scroll_loop (rc : Nat) : Nat → List Match → Option Nat
  | _, [] => none
  | idx, m :: rest =>
    if !m.finished then
      if idx * 2 < rc then some (idx * 2) else scroll_loop rc (idx + 1) rest
    else scroll_loop rc (idx + 1) rest

/-- `MatchesTable.scroll_to_unplayed`: move the cursor to the first unplayed
match (two rows per match), leaving it in place when every match is
finished. -/
def MatchesTable.scroll_to_unplayed (t : MatchesTable) : MatchesTable :=
  match scroll_loop t.row_count 0 t.«matches» with
  | some r => { t with cursor_row := r }
  | none => t

/-- The match the cursor sits on: the cursor row divided by two indexes the
stored match list (each match renders as a pair of rows). -/
def MatchesTable.cursor_match (t : MatchesTable) : Option Match :=
  t.«matches»[t.cursor_row / 2]?

/-- The rows `MatchesTable.update_data` adds for one match: date cell, team
cell, score cell, matchday cell, then the away row. A finished match
dereferences `score.home` / `score.away` (fallible when the score object is
absent); an unfinished match renders empty score cells without touching
`score`. Calendar formatting of the timestamp is the datetime library's
concern; the raw timestamp stands in for the formatted date. -/
def renderMatchRows (m : Match) : Option (List (List String)) :=
  if m.finished then
    match m.score with
    | some s =>
      some [[m.utc_date, m.home_team.short_name, toString s.home, toString m.matchday],
            ["", m.away_team.short_name, toString s.away, ""]]
    | none => none
  else
    some [[m.utc_date, m.home_team.short_name, "", toString m.matchday],
          ["", m.away_team.short_name, "", ""]]

/-- The full row list `MatchesTable.update_data` renders for a match list;
`none` models the `add_row` loop raising on a finished match with no score
object. -/
def update_data_rows : List Match → Option (List (List String))
  | [] => some []
  | m :: rest =>
    match renderMatchRows m, update_data_rows rest with
    | some rs, some rest' => some (rs ++ rest')
    | _, _ => none

/-- State of `TeamView`: the reactive `name`, the reactive full match list
`matches`, and the embedded `MatchesTable`. -/
structure TeamView where
  name : String
  «matches» : List Match
  table : MatchesTable
deriving DecidableEq, Repr

/-- Body of the reactive watcher `TeamView.watch_matches`: re-render the
table from the assigned list and scroll to the first unplayed match. -/
def TeamView.watch_matches (v : TeamView) (ms : List Match) : TeamView :=
  { v with table := (v.table.update_data ms).scroll_to_unplayed }

/-- Assignment to the reactive `TeamView.matches`: the watcher runs only
when the new value differs from the current one (Textual reactive default). -/
def TeamView.set_matches (v : TeamView) (ms : List Match) : TeamView :=
  if v.«matches» = ms then v
  else TeamView.watch_matches { v with «matches» := ms } ms

/-- Assignment to the reactive `TeamView.name` (the watcher only updates the
label widget, which carries no spec-relevant state). -/
def TeamView.set_name (v : TeamView) (n : String) : TeamView :=
  if v.name = n then v else { v with name := n }

/-- `TeamView.filter`: render the sublist of `self.matches` accepted by the
predicate; optionally scroll to the first unplayed match afterwards. -/
def TeamView.filter (v : TeamView) (fn : Match → Bool) (scroll : Bool) : TeamView :=
  let t := v.table.update_data (v.«matches».filter fn)
  { v with table := if scroll then t.scroll_to_unplayed else t }

/-- `TeamView.filter_to_played`: keep finished matches; no scroll. -/
def TeamView.filter_to_played (v : TeamView) : TeamView :=
  v.filter (fun m => m.finished) false

/-- `TeamView.filter_to_unplayed`: keep unfinished matches; no scroll. -/
def TeamView.filter_to_unplayed (v : TeamView) : TeamView :=
  v.filter (fun m => !m.finished) false

/-- `TeamView.show_all`: keep everything and scroll to the first unplayed
match. -/
def TeamView.show_all (v : TeamView) : TeamView :=
  v.filter (fun _ => true) true

/-- Index of the first unfinished match in a list (specification-side
helper used to reason about the scroll loop). -/
def firstUnplayedIdx : List Match → Option Nat
  | [] => none
  | m :: rest =>
    if m.finished then (firstUnplayedIdx rest).map (· + 1) else some 0

/-- Lookup in the memoization table of `get_matches`: `functools.cache`
keys on its argument by dataclass equality, i.e. the whole `Team` value. -/
def cacheLookup (cache : List (Team × List Match)) (team : Team) :
    Option (List Match) :=
  (cache.find? (fun e => decide (e.1 = team))).map (fun e => e.2)

/-- `get_matches` under `@cache`: a hit returns the stored list and touches
nothing; a miss runs the HTTP fetch (the `fetch` oracle), stores the result
on success, and stores nothing when the fetch raises. The returned flag
records whether the underlying fetch ran. -/
def get_matches (fetch : Team → Except String (List Match))
    (cache : List (Team × List Match)) (team : Team) :
    Except String (List Match × List (Team × List Match) × Bool) :=
  match cacheLookup cache team with
  | some ms => Except.ok (ms, cache, false)
  | none =>
    match fetch team with
    | Except.ok ms => Except.ok (ms, (team, ms) :: cache, true)
    | Except.error e => Except.error e

/-- State of `StandingsApp` relevant to the spec: the standings fetched at
startup, the reactive `current_view`, the two widgets' visibility, the team
view, the `get_matches` memoization table, and a count of underlying
fetches actually performed (the spec's fetch-count collaborator double). -/
structure AppState where
  standings : List Standing
  current_view : String
  table_display : Bool
  team_view_display : Bool
  team_view : TeamView
  cache : List (Team × List Match)
  fetch_count : Nat
deriving DecidableEq, Repr

/-- Body of the reactive watcher `StandingsApp.watch_current_view`: the
standings table is shown exactly in the `"standings"` view, the team view
exactly otherwise. -/
def StandingsApp.watch_current_view (app : AppState) (view : String) : AppState :=
  if view = "standings" then
    { app with table_display := true, team_view_display := false }
  else
    { app with table_display := false, team_view_display := true }

/-- Assignment to the reactive `current_view`: the watcher runs only when
the value changes. -/
def StandingsApp.set_current_view (app : AppState) (view : String) : AppState :=
  if app.current_view = view then app
  else StandingsApp.watch_current_view { app with current_view := view } view

/-- `StandingsApp.on_data_table_row_selected`: look up the selected row's
standing, get the team's matches through the cache, set the team view's
name and match list, and switch to the matches view. A raised fetch error
(or an out-of-range row) escapes before any state is written. -/
def StandingsApp.on_data_table_row_selected
    (fetch : Team → Except String (List Match)) (app : AppState)
    (index : Nat) : Except String AppState :=
  match app.standings[index]? with
  | none => Except.error "row index out of range"
  | some standing =>
    match get_matches fetch app.cache standing.team with
    | Except.error e => Except.error e
    | Except.ok (ms, cache', fetched) =>
      let tv := (app.team_view.set_name standing.team.name).set_matches ms
      let app' := { app with
        cache := cache',
        fetch_count := app.fetch_count + (if fetched then 1 else 0),
        team_view := tv }
      Except.ok (StandingsApp.set_current_view app' "matches")

/-- `action_filter_to_unplayed` key binding. -/
def StandingsApp.action_filter_to_unplayed (app : AppState) : AppState :=
  { app with team_view := app.team_view.filter_to_unplayed }

/-- `action_filter_to_played` key binding. -/
def StandingsApp.action_filter_to_played (app : AppState) : AppState :=
  { app with team_view := app.team_view.filter_to_played }

/-- `action_show_all` key binding. -/
def StandingsApp.action_show_all (app : AppState) : AppState :=
  { app with team_view := app.team_view.show_all }

/-- `action_show_standings` key binding (back). -/
def StandingsApp.action_show_standings (app : AppState) : AppState :=
  StandingsApp.set_current_view app "standings"

/-- The application state right after `__init__` + `on_mount`: standings
fetched and rendered, standings view active, team view hidden and empty,
match cache empty. -/
def initApp (standings : List Standing) : AppState :=
  { standings := standings
    current_view := "standings"
    table_display := true
    team_view_display := false
    team_view :=
      { name := ""
        «matches» := []
        table := { «matches» := [], cursor_row := 0 } }
    cache := []
    fetch_count := 0 }

/-- The user events the app reacts to (quit excluded: it only ends the
process). -/
inductive Event where
  | select (index : Nat)
  | filterPlayed
  | filterUnplayed
  | showAll
  | back
deriving DecidableEq, Repr

/-- One event-loop step. A selection whose fetch raises leaves the state as
it was (the handler aborts before writing anything). -/
def StandingsApp.step (fetch : Team → Except String (List Match))
    (app : AppState) : Event → AppState
  | Event.select i =>
    match StandingsApp.on_data_table_row_selected fetch app i with
    | Except.ok app' => app'
    | Except.error _ => app
  | Event.filterPlayed => StandingsApp.action_filter_to_played app
  | Event.filterUnplayed => StandingsApp.action_filter_to_unplayed app
  | Event.showAll => StandingsApp.action_show_all app
  | Event.back => StandingsApp.action_show_standings app

/-- Run a sequence of events from a state. -/
def run_events (fetch : Team → Except String (List Match)) (app : AppState)
    (es : List Event) : AppState :=
  es.foldl (fun s e => StandingsApp.step fetch s e) app

/-- The states the app can reach from startup, under any sequence of events
and any behavior of the fetch oracle over time. -/
inductive Reachable : AppState → Prop
  | init (standings : List Standing) : Reachable (initApp standings)
  | step (fetch : Team → Except String (List Match)) (e : Event)
      (app : AppState) : Reachable app →
      Reachable (StandingsApp.step fetch app e)

/-- Invariant carried through the reachability induction: the view tag is
one of the two screens, each widget is displayed exactly on its screen, and
in the matches view the team view's name and list belong to a selected
standing whose matches sit in the cache. -/
def AppInv (s : AppState) : Prop :=
  (s.current_view = "standings" ∨ s.current_view = "matches")
  ∧ s.team_view_display = decide (s.current_view = "matches")
  ∧ s.table_display = decide (s.current_view = "standings")
  ∧ (s.current_view = "matches" →
      ∃ st ∈ s.standings, s.team_view.name = st.team.name ∧
        cacheLookup s.cache st.team = some s.team_view.«matches»)

/-- Erase the score object of an unfinished match (used to state that
rendering never reads it). -/
def eraseUnfinishedScore (m : Match) : Match :=
  if m.finished then m else { m with score := none }

/-- Concrete data for witnesses and counterexamples. -/
def teamA : Team :=
  { id := "57", name := "Arsenal FC", short_name := "Arsenal", tla := "ARS",
    crest := "crestA" }

def teamB : Team :=
  { id := "64", name := "Liverpool FC", short_name := "Liverpool",
    tla := "LIV", crest := "crestB" }

/-- Same `id` as `teamA`, different display name. -/
def teamA_alias : Team :=
  { id := "57", name := "The Arsenal", short_name := "Arsenal", tla := "ARS",
    crest := "crestA" }

def scoreHomeWin : Score :=
  { winner := "HOME_TEAM", full_time := { home := 2, away := 1 } }

def matchA1 : Match :=
  { id := "mA1", utc_date := "2025-08-16T14:00:00Z", home_team := teamA,
    away_team := teamB, status := "FINISHED", matchday := 1,
    score := some scoreHomeWin }

def matchA2 : Match :=
  { id := "mA2", utc_date := "2025-08-23T14:00:00Z", home_team := teamB,
    away_team := teamA, status := "SCHEDULED", matchday := 2, score := none }

def matchesA : List Match := [matchA1, matchA2]

def matchB1 : Match :=
  { id := "mB1", utc_date := "2025-08-16T16:30:00Z", home_team := teamB,
    away_team := teamA, status := "SCHEDULED", matchday := 1, score := none }

def matchesB : List Match := [matchB1]

def standingA : Standing :=
  { position := 1, team := teamA, played_games := 1, form := "W", won := 1,
    draw := 0, lost := 0, points := 3, goals_for := 2, goals_against := 1,
    goal_difference := 1 }

def standingB : Standing :=
  { position := 2, team := teamB, played_games := 1, form := "L", won := 0,
    draw := 0, lost := 1, points := 0, goals_for := 1, goals_against := 2,
    goal_difference := -1 }

def demoStandings : List Standing := [standingA, standingB]

/-- A fetch oracle that succeeds for the two demo teams. -/
def demoFetch : Team → Except String (List Match) :=
  fun t =>
    if t = teamA then Except.ok matchesA
    else if t = teamB then Except.ok matchesB
    else Except.error "unknown team"

/-- A fetch oracle that always raises. -/
def failFetch : Team → Except String (List Match) :=
  fun _ => Except.error "network error"

/-- A team view holding the demo matches (one finished, one scheduled). -/
def demoViewMixed : TeamView :=
  { name := "Arsenal FC", «matches» := matchesA,
    table := { «matches» := matchesA, cursor_row := 0 } }

/-- A team view whose matches are all finished. -/
def demoViewFinished : TeamView :=
  { name := "Arsenal FC", «matches» := [matchA1],
    table := { «matches» := [matchA1], cursor_row := 0 } }

/-- A fetch oracle that returns the same list for every team. -/
def constFetchA : Team → Except String (List Match) :=
  fun _ => Except.ok matchesA

/-- Select a team, filter to played, go back, select the same team again. -/
def traceReselect : List Event :=
  [Event.select 0, Event.filterPlayed, Event.back, Event.select 0]

/-- Select team A, switch filter, select team B, select team A again (with
back steps in between, as the standings table is only selectable from the
standings view). -/
def traceABA : List Event :=
  [Event.select 0, Event.filterPlayed, Event.back, Event.select 1,
   Event.back, Event.select 0]

theorem scroll_loop_eq (ms : List Match) : ∀ (k rc : Nat),
    2 * (k + ms.length) ≤ rc →
    scroll_loop rc k ms = (firstUnplayedIdx ms).map (fun i => 2 * (k + i)) := by
  induction ms with
  | nil => intro k rc _; rfl
  | cons m rest ih =>
    intro k rc h
    have h' : 2 * ((k + 1) + rest.length) ≤ rc := by
      simp only [List.length_cons] at h; omega
    by_cases hm : m.finished = true
    · rw [show scroll_loop rc k (m :: rest) = scroll_loop rc (k + 1) rest by
        simp [scroll_loop, hm]]
      rw [ih (k + 1) rc h']
      rw [show firstUnplayedIdx (m :: rest) = (firstUnplayedIdx rest).map (· + 1) by
        simp [firstUnplayedIdx, hm]]
      cases firstUnplayedIdx rest with
      | none => rfl
      | some j => simp; omega
    · have hm' : m.finished = false := by simpa using hm
      have hlt : k * 2 < rc := by simp only [List.length_cons] at h; omega
      rw [show scroll_loop rc k (m :: rest) = some (k * 2) by
        simp [scroll_loop, hm', hlt]]
      rw [show firstUnplayedIdx (m :: rest) = some 0 by simp [firstUnplayedIdx, hm']]
      simp [Nat.mul_comm]

theorem firstUnplayedIdx_get (ms : List Match) :
    ∀ i, firstUnplayedIdx ms = some i →
      ms[i]? = ms.find? (fun m => !m.finished) := by
  induction ms with
  | nil => intro i h; simp [firstUnplayedIdx] at h
  | cons m rest ih =>
    intro i h
    by_cases hm : m.finished = true
    · cases hf : firstUnplayedIdx rest with
      | none => rw [firstUnplayedIdx, if_pos hm, hf] at h; cases h
      | some j =>
        rw [firstUnplayedIdx, if_pos hm, hf] at h
        have hij : i = j + 1 := by
          simpa using h.symm
        subst hij
        rw [List.getElem?_cons_succ, List.find?_cons_of_neg _ (by simp [hm])]
        exact ih j hf
    · have hm' : m.finished = false := by simpa using hm
      rw [firstUnplayedIdx, if_neg (by simp [hm'])] at h
      have h0 : i = 0 := by simpa using h.symm
      subst h0
      rw [List.getElem?_cons_zero, List.find?_cons_of_pos _ (by simp [hm'])]

theorem firstUnplayedIdx_isSome (ms : List Match) :
    (∃ m ∈ ms, m.finished = false) → (firstUnplayedIdx ms).isSome = true := by
  induction ms with
  | nil => rintro ⟨m, hm, _⟩; simp at hm
  | cons m rest ih =>
    rintro ⟨x, hx, hxf⟩
    by_cases hm : m.finished = true
    · rcases List.mem_cons.mp hx with rfl | hx'
      · rw [hm] at hxf; cases hxf
      · rcases Option.isSome_iff_exists.mp (ih ⟨x, hx', hxf⟩) with ⟨j, hj⟩
        simp [firstUnplayedIdx, hm, hj]
    · have hm' : m.finished = false := by simpa using hm
      simp [firstUnplayedIdx, hm']

theorem firstUnplayedIdx_none (ms : List Match) :
    (∀ m ∈ ms, m.finished = true) → firstUnplayedIdx ms = none := by
  induction ms with
  | nil => intro _; rfl
  | cons m rest ih =>
    intro h
    have hm := h m (List.mem_cons_self m rest)
    simp [firstUnplayedIdx, hm, ih fun x hx => h x (List.mem_cons_of_mem m hx)]

/-- After a fresh render, scrolling puts the cursor on row `2 * i` for the
first unfinished index `i`, and leaves it at row 0 when none exists. -/
theorem update_scroll_cursor (t : MatchesTable) (ms : List Match) :
    ((t.update_data ms).scroll_to_unplayed).cursor_row =
      (match firstUnplayedIdx ms with
       | some i => 2 * i
       | none => 0) ∧
    ((t.update_data ms).scroll_to_unplayed).«matches» = ms := by
  have h := scroll_loop_eq ms 0 (2 * ms.length) (by omega)
  have hm : (t.update_data ms).«matches» = ms := rfl
  have hrc : (t.update_data ms).row_count = 2 * ms.length := rfl
  unfold MatchesTable.scroll_to_unplayed
  rw [hm, hrc, h]
  cases firstUnplayedIdx ms with
  | none => exact ⟨rfl, rfl⟩
  | some i => exact ⟨by simp, rfl⟩

theorem cursor_match_update_scroll (t : MatchesTable) (ms : List Match)
    (h : ∃ m ∈ ms, m.finished = false) :
    ((t.update_data ms).scroll_to_unplayed).cursor_match
      = ms.find? (fun m => !m.finished) := by
  rcases Option.isSome_iff_exists.mp (firstUnplayedIdx_isSome ms h) with ⟨i, hi⟩
  have hc := update_scroll_cursor t ms
  unfold MatchesTable.cursor_match
  rw [hc.2, hc.1, hi]
  rw [show 2 * i / 2 = i from Nat.mul_div_cancel_left i (by norm_num)]
  exact firstUnplayedIdx_get ms i hi

theorem find_head_of_all (l : List Match) (p : Match → Bool) (hne : l ≠ [])
    (hall : ∀ m ∈ l, p m = true) : l.find? p = l[0]? := by
  cases l with
  | nil => cases hne rfl
  | cons c t =>
    rw [List.find?_cons_of_pos _ (hall c (List.mem_cons_self c t)),
      List.getElem?_cons_zero]

/-- C1: whenever a team is newly selected (the `watch_matches` watcher), and
whenever the visible set is ALL (`show_all`) or UNPLAYED
(`filter_to_unplayed`), the cursor sits on the first match of the filtered
sequence whose `finished` flag is false, for every match list containing at
least one unfinished match. (For UNPLAYED the code reaches this position by
the cursor reset of the re-render rather than by an explicit scroll, but the
resulting position is exactly the rule's.) -/
theorem cursor_lands_on_first_unplayed (v : TeamView)
    (h : ∃ m ∈ v.«matches», m.finished = false) :
    (∀ w : TeamView, (TeamView.watch_matches w v.«matches»).table.cursor_match
        = v.«matches».find? (fun m => !m.finished))
    ∧ (v.show_all).table.cursor_match = v.«matches».find? (fun m => !m.finished)
    ∧ (v.filter_to_unplayed).table.cursor_match
        = (v.«matches».filter (fun m => !m.finished)).find?
            (fun m => !m.finished) := by
  refine ⟨fun w => cursor_match_update_scroll w.table v.«matches» h, ?_, ?_⟩
  · show ((v.table.update_data
        (v.«matches».filter fun _ => true)).scroll_to_unplayed).cursor_match = _
    rw [List.filter_true]
    exact cursor_match_update_scroll v.table v.«matches» h
  · rcases h with ⟨x, hx, hxf⟩
    have hxmem : x ∈ v.«matches».filter (fun m => !m.finished) :=
      List.mem_filter.mpr ⟨hx, by simp [hxf]⟩
    have hne : v.«matches».filter (fun m => !m.finished) ≠ [] :=
      List.ne_nil_of_mem hxmem
    have hall : ∀ m ∈ v.«matches».filter (fun m => !m.finished),
        (!m.finished) = true := fun m hm => (List.mem_filter.mp hm).2
    show ((v.table.update_data
        (v.«matches».filter fun m => !m.finished))).cursor_match = _
    unfold MatchesTable.cursor_match
    rw [find_head_of_all _ _ hne hall]
    simp [MatchesTable.update_data]

theorem cursor_lands_on_first_unplayed_witness :
    (∃ m ∈ demoViewMixed.«matches», m.finished = false)
    ∧ (demoViewMixed.show_all).table.cursor_match
        = demoViewMixed.«matches».find? (fun m => !m.finished) := by
  have h : ∃ m ∈ demoViewMixed.«matches», m.finished = false :=
    ⟨matchA2, by decide, by decide⟩
  exact ⟨h, (cursor_lands_on_first_unplayed demoViewMixed h).2.1⟩

/-- C3: when the rendered sequence contains no unfinished match (all
finished, or empty), the cursor ends at the top (row 0) and nothing errors:
the scroll never moves the cursor and the re-render left it at 0. Stated
for the raw table rule, for ALL, and for the (then empty) UNPLAYED view. -/
theorem cursor_fallback_top (v : TeamView)
    (h : ∀ m ∈ v.«matches», m.finished = true) :
    (v.show_all).table.cursor_row = 0
    ∧ (v.filter_to_unplayed).table.«matches» = []
    ∧ (v.filter_to_unplayed).table.cursor_row = 0
    ∧ (∀ (t : MatchesTable) (ms : List Match), (∀ m ∈ ms, m.finished = true) →
        ((t.update_data ms).scroll_to_unplayed).cursor_row = 0) := by
  have general : ∀ (t : MatchesTable) (ms : List Match),
      (∀ m ∈ ms, m.finished = true) →
      ((t.update_data ms).scroll_to_unplayed).cursor_row = 0 := by
    intro t ms hms
    have hc := (update_scroll_cursor t ms).1
    rw [firstUnplayedIdx_none ms hms] at hc
    exact hc
  refine ⟨?_, ?_, rfl, general⟩
  · show ((v.table.update_data
        (v.«matches».filter fun _ => true)).scroll_to_unplayed).cursor_row = 0
    rw [List.filter_true]
    exact general v.table v.«matches» h
  · show v.«matches».filter (fun m => !m.finished) = []
    simp only [List.filter_eq_nil_iff]
    intro m hm
    simp [h m hm]

theorem cursor_fallback_top_witness :
    (∀ m ∈ demoViewFinished.«matches», m.finished = true)
    ∧ (demoViewFinished.show_all).table.cursor_row = 0 := by
  have h : ∀ m ∈ demoViewFinished.«matches», m.finished = true := by decide
  exact ⟨h, (cursor_fallback_top demoViewFinished h).1⟩

/-- C6: PLAYED keeps exactly the finished matches and UNPLAYED exactly the
unfinished ones, both as stable sublists of the input, and together they
partition the input: membership characterizations, no overlap and no loss
(their concatenation is a permutation of the input). -/
theorem filters_partition (v : TeamView) :
    (v.filter_to_played).table.«matches»
        = v.«matches».filter (fun m => m.finished)
    ∧ (v.filter_to_unplayed).table.«matches»
        = v.«matches».filter (fun m => !m.finished)
    ∧ (v.filter_to_played).table.«matches».Sublist v.«matches»
    ∧ (v.filter_to_unplayed).table.«matches».Sublist v.«matches»
    ∧ (∀ m, m ∈ (v.filter_to_played).table.«matches»
        ↔ m ∈ v.«matches» ∧ m.finished = true)
    ∧ (∀ m, m ∈ (v.filter_to_unplayed).table.«matches»
        ↔ m ∈ v.«matches» ∧ m.finished = false)
    ∧ ((v.filter_to_played).table.«matches»
        ++ (v.filter_to_unplayed).table.«matches»).Perm v.«matches» := by
  refine ⟨rfl, rfl, List.filter_sublist _, List.filter_sublist _, ?_, ?_, ?_⟩
  · intro m
    rw [show (v.filter_to_played).table.«matches»
        = v.«matches».filter (fun m => m.finished) from rfl, List.mem_filter]
  · intro m
    rw [show (v.filter_to_unplayed).table.«matches»
        = v.«matches».filter (fun m => !m.finished) from rfl, List.mem_filter]
    simp
  · exact List.filter_append_perm (fun m => m.finished) v.«matches»

/-- C7: ALL is the identity projection: after `show_all` the displayed
sequence is the full match list, in the same order, for every list
including the empty one. -/
theorem show_all_identity (v : TeamView) :
    (v.show_all).table.«matches» = v.«matches» := by
  show ((v.table.update_data
      (v.«matches».filter fun _ => true)).scroll_to_unplayed).«matches» = _
  rw [List.filter_true]
  exact (update_scroll_cursor v.table v.«matches»).2

theorem cacheLookup_cons_self (c : List (Team × List Match)) (t : Team)
    (ms : List Match) : cacheLookup ((t, ms) :: c) t = some ms := by
  simp [cacheLookup, List.find?]

theorem get_matches_of_hit (fetch : Team → Except String (List Match))
    (cache : List (Team × List Match)) (team : Team) (ms : List Match)
    (h : cacheLookup cache team = some ms) :
    get_matches fetch cache team = Except.ok (ms, cache, false) := by
  unfold get_matches
  rw [h]

theorem get_matches_ok_lookup (fetch : Team → Except String (List Match))
    (cache : List (Team × List Match)) (team : Team) (ms : List Match)
    (cache' : List (Team × List Match)) (b : Bool)
    (h : get_matches fetch cache team = Except.ok (ms, cache', b)) :
    cacheLookup cache' team = some ms := by
  unfold get_matches at h
  cases h1 : cacheLookup cache team with
  | some ms0 =>
    rw [h1] at h
    simp only [Except.ok.injEq, Prod.mk.injEq] at h
    obtain ⟨rfl, rfl, rfl⟩ := h
    exact h1
  | none =>
    rw [h1] at h
    cases h2 : fetch team with
    | ok ms1 =>
      rw [h2] at h
      simp only [Except.ok.injEq, Prod.mk.injEq] at h
      obtain ⟨rfl, rfl, rfl⟩ := h
      exact cacheLookup_cons_self cache team ms1
    | error e =>
      rw [h2] at h
      cases h

/-- C2: after a successful `get_matches` call for a team, a second call for
the same team returns the very same stored sequence and cache, performs no
underlying fetch (the flag is `false`), and its result does not depend on
the fetch oracle at all — no network access happens. -/
theorem get_matches_second_call_cached
    (fetch fetch' : Team → Except String (List Match))
    (cache : List (Team × List Match)) (team : Team) (ms : List Match)
    (cache' : List (Team × List Match)) (b : Bool)
    (h : get_matches fetch cache team = Except.ok (ms, cache', b)) :
    get_matches fetch' cache' team = Except.ok (ms, cache', false) :=
  get_matches_of_hit fetch' cache' team ms
    (get_matches_ok_lookup fetch cache team ms cache' b h)

theorem get_matches_second_call_cached_witness :
    get_matches demoFetch [] teamA
      = Except.ok (matchesA, [(teamA, matchesA)], true)
    ∧ get_matches failFetch [(teamA, matchesA)] teamA
      = Except.ok (matchesA, [(teamA, matchesA)], false) := by
  have h1 : get_matches demoFetch [] teamA
      = Except.ok (matchesA, [(teamA, matchesA)], true) := by rfl
  exact ⟨h1,
    get_matches_second_call_cached demoFetch failFetch [] teamA matchesA
      [(teamA, matchesA)] true h1⟩

/-- C5 counterexample: two `Team` values with equal `id` but a different
display name. Their ids agree, yet the teams are unequal (dataclass equality
compares every field, not just `id`), and after caching the first team's
matches, a call for the second team misses the cache and performs a second
underlying fetch (flag `true`, new cache entry). -/
theorem cache_not_keyed_by_id_counterexample :
    teamA.id = teamA_alias.id
    ∧ teamA ≠ teamA_alias
    ∧ get_matches constFetchA [] teamA
        = Except.ok (matchesA, [(teamA, matchesA)], true)
    ∧ get_matches constFetchA [(teamA, matchesA)] teamA_alias
        = Except.ok (matchesA, [(teamA_alias, matchesA), (teamA, matchesA)],
            true) := by
  refine ⟨rfl, by decide, by rfl, by rfl⟩

/-- C5 amended: the match cache is keyed by whole-`Team`-value equality (the
dataclass's field-wise equality), not by `id` alone: any two equal `Team`
values share one cache entry and the second call performs no fetch, and
`Team` equality holds exactly when all five fields agree. -/
theorem cache_keyed_by_team_value
    (fetch fetch' : Team → Except String (List Match))
    (cache : List (Team × List Match)) (t1 t2 : Team) (ms : List Match)
    (cache' : List (Team × List Match)) (b : Bool) (heq : t1 = t2)
    (h : get_matches fetch cache t1 = Except.ok (ms, cache', b)) :
    (get_matches fetch' cache' t2 = Except.ok (ms, cache', false))
    ∧ (∀ u1 u2 : Team, u1 = u2 ↔
        (u1.id = u2.id ∧ u1.name = u2.name ∧ u1.short_name = u2.short_name
          ∧ u1.tla = u2.tla ∧ u1.crest = u2.crest)) := by
  constructor
  · subst heq
    exact get_matches_of_hit fetch' cache' t1 ms
      (get_matches_ok_lookup fetch cache t1 ms cache' b h)
  · intro u1 u2
    cases u1
    cases u2
    simp [Team.mk.injEq]

theorem cache_keyed_by_team_value_witness :
    get_matches demoFetch [] teamA
      = Except.ok (matchesA, [(teamA, matchesA)], true)
    ∧ get_matches failFetch [(teamA, matchesA)] teamA
      = Except.ok (matchesA, [(teamA, matchesA)], false)
    ∧ (teamA = teamA_alias ↔
        (teamA.id = teamA_alias.id ∧ teamA.name = teamA_alias.name
          ∧ teamA.short_name = teamA_alias.short_name
          ∧ teamA.tla = teamA_alias.tla
          ∧ teamA.crest = teamA_alias.crest)) := by
  have h1 : get_matches demoFetch [] teamA
      = Except.ok (matchesA, [(teamA, matchesA)], true) := by rfl
  have h2 := cache_keyed_by_team_value demoFetch failFetch [] teamA teamA
    matchesA [(teamA, matchesA)] true rfl h1
  exact ⟨h1, h2.1, h2.2 teamA teamA_alias⟩

theorem set_current_view_preserves (a : AppState) (v : String) :
    (StandingsApp.set_current_view a v).standings = a.standings
    ∧ (StandingsApp.set_current_view a v).cache = a.cache
    ∧ (StandingsApp.set_current_view a v).team_view = a.team_view
    ∧ (StandingsApp.set_current_view a v).fetch_count = a.fetch_count
    ∧ (StandingsApp.set_current_view a v).current_view = v := by
  unfold StandingsApp.set_current_view StandingsApp.watch_current_view
  split_ifs with h1 h2
  · exact ⟨rfl, rfl, rfl, rfl, h1⟩
  · exact ⟨rfl, rfl, rfl, rfl, rfl⟩
  · exact ⟨rfl, rfl, rfl, rfl, rfl⟩

theorem mem_of_getElem?_eq_some {α : Type} : ∀ (l : List α) (i : Nat) (a : α),
    l[i]? = some a → a ∈ l := by
  intro l
  induction l with
  | nil => intro i a h; simp at h
  | cons x xs ih =>
    intro i a h
    cases i with
    | zero =>
      rw [List.getElem?_cons_zero] at h
      injection h with h
      exact h ▸ List.mem_cons_self x xs
    | succ j =>
      rw [List.getElem?_cons_succ] at h
      exact List.mem_cons_of_mem x (ih j a h)

theorem on_row_selected_eq (fetch : Team → Except String (List Match))
    (app : AppState) (i : Nat) (standing : Standing)
    (hs : app.standings[i]? = some standing) :
    StandingsApp.on_data_table_row_selected fetch app i =
      match get_matches fetch app.cache standing.team with
      | Except.error e => Except.error e
      | Except.ok (ms, cache', fetched) =>
        Except.ok (StandingsApp.set_current_view
          { app with
            cache := cache',
            fetch_count := app.fetch_count + (if fetched then 1 else 0),
            team_view :=
              (app.team_view.set_name standing.team.name).set_matches ms }
          "matches") := by
  unfold StandingsApp.on_data_table_row_selected
  rw [hs]

/-- C4: when the fetch for a selected team raises, the selection handler
propagates the error before writing anything: the cache stores no entry,
the whole application state (navigation view, team name, match list) is
unchanged, and a retry of the same selection attempts the fetch again — a
succeeding retry performs exactly one more underlying fetch and caches its
result. -/
theorem failed_fetch_preserves_state
    (fetch : Team → Except String (List Match)) (app : AppState) (i : Nat)
    (standing : Standing) (e : String)
    (hs : app.standings[i]? = some standing)
    (hc : cacheLookup app.cache standing.team = none)
    (hf : fetch standing.team = Except.error e) :
    StandingsApp.on_data_table_row_selected fetch app i = Except.error e
    ∧ StandingsApp.step fetch app (Event.select i) = app
    ∧ (∀ (fetch' : Team → Except String (List Match)) (ms : List Match),
        fetch' standing.team = Except.ok ms →
        ∃ app', StandingsApp.on_data_table_row_selected fetch' app i
            = Except.ok app'
          ∧ app'.fetch_count = app.fetch_count + 1
          ∧ cacheLookup app'.cache standing.team = some ms) := by
  have hge : get_matches fetch app.cache standing.team = Except.error e := by
    unfold get_matches
    rw [hc, hf]
  have herr : StandingsApp.on_data_table_row_selected fetch app i
      = Except.error e := by
    rw [on_row_selected_eq fetch app i standing hs, hge]
  refine ⟨herr, ?_, ?_⟩
  · simp only [StandingsApp.step, herr]
  · intro fetch' ms hok
    have hg : get_matches fetch' app.cache standing.team
        = Except.ok (ms, (standing.team, ms) :: app.cache, true) := by
      unfold get_matches
      rw [hc, hok]
    refine ⟨StandingsApp.set_current_view
      { app with
        cache := (standing.team, ms) :: app.cache,
        fetch_count := app.fetch_count + (if true then 1 else 0),
        team_view := (app.team_view.set_name standing.team.name).set_matches ms }
      "matches", ?_, ?_, ?_⟩
    · rw [on_row_selected_eq fetch' app i standing hs, hg]
    · rw [(set_current_view_preserves _ _).2.2.2.1]
      simp
    · rw [(set_current_view_preserves _ _).2.1]
      exact cacheLookup_cons_self _ _ _

theorem failed_fetch_preserves_state_witness :
    (initApp demoStandings).standings[0]? = some standingA
    ∧ cacheLookup (initApp demoStandings).cache standingA.team = none
    ∧ failFetch standingA.team = Except.error "network error"
    ∧ StandingsApp.step failFetch (initApp demoStandings) (Event.select 0)
        = initApp demoStandings := by
  have hs : (initApp demoStandings).standings[0]? = some standingA := by rfl
  have hc : cacheLookup (initApp demoStandings).cache standingA.team = none := by
    rfl
  have hf : failFetch standingA.team = Except.error "network error" := by rfl
  exact ⟨hs, hc, hf,
    (failed_fetch_preserves_state failFetch (initApp demoStandings) 0 standingA
      "network error" hs hc hf).2.1⟩

theorem set_name_name (v : TeamView) (n : String) : (v.set_name n).name = n := by
  unfold TeamView.set_name
  split_ifs with h
  · exact h
  · rfl

theorem set_name_matches (v : TeamView) (n : String) :
    (v.set_name n).«matches» = v.«matches» := by
  unfold TeamView.set_name
  split_ifs <;> rfl

theorem set_matches_matches (v : TeamView) (ms : List Match) :
    (v.set_matches ms).«matches» = ms := by
  unfold TeamView.set_matches
  split_ifs with h
  · exact h
  · rfl

theorem set_matches_name (v : TeamView) (ms : List Match) :
    (v.set_matches ms).name = v.name := by
  unfold TeamView.set_matches
  split_ifs <;> rfl

theorem set_matches_table_of_ne (v : TeamView) (ms : List Match)
    (h : v.«matches» ≠ ms) :
    (v.set_matches ms).table = (v.table.update_data ms).scroll_to_unplayed := by
  unfold TeamView.set_matches
  rw [if_neg h]
  rfl

/-- C8 counterexample: select team A, filter to PLAYED, go back, select team
A again. The re-selection assigns the reactive match list a value equal to
the current one, so the watcher does not run and the table still shows the
PLAYED-filtered list `[matchA1]` instead of A's full list — the filter mode
is not reset to ALL on this selection, although the app is in the matches
view for team A. -/
theorem select_resets_filter_counterexample :
    (run_events demoFetch (initApp demoStandings) traceReselect).current_view
        = "matches"
    ∧ (run_events demoFetch (initApp demoStandings)
          traceReselect).team_view.«matches» = matchesA
    ∧ (run_events demoFetch (initApp demoStandings)
          traceReselect).team_view.table.«matches» = [matchA1]
    ∧ matchesA ≠ [matchA1] := by
  exact ⟨by decide, by decide, by decide, by decide⟩

/-- C8 amended: a selection stores the selected team's full match list, and
whenever the stored list actually changes (in particular whenever a
different team's list was on display) the watcher re-renders the full,
unfiltered (ALL) list; re-selecting the very team whose list is already
loaded leaves the previously filtered display unchanged. In the scenario
"select A, switch filter, select B, select A again", the final view shows
A's full list and only two underlying fetches ever happen (the second
selection of A is served from the cache). -/
theorem select_resets_to_all_when_list_changes
    (fetch : Team → Except String (List Match)) (app app' : AppState)
    (i : Nat) (standing : Standing)
    (hs : app.standings[i]? = some standing)
    (h : StandingsApp.on_data_table_row_selected fetch app i = Except.ok app')
    (hne : app'.team_view.«matches» ≠ app.team_view.«matches») :
    (app'.team_view.table.«matches» = app'.team_view.«matches»)
    ∧ (run_events demoFetch (initApp demoStandings)
          traceABA).team_view.table.«matches» = matchesA
    ∧ (run_events demoFetch (initApp demoStandings) traceABA).fetch_count
        = 2 := by
  refine ⟨?_, by decide, by decide⟩
  rw [on_row_selected_eq fetch app i standing hs] at h
  cases hg : get_matches fetch app.cache standing.team with
  | error e => rw [hg] at h; cases h
  | ok res =>
    obtain ⟨ms, cache', fetched⟩ := res
    rw [hg] at h
    injection h with h
    subst h
    rw [(set_current_view_preserves _ _).2.2.1] at hne ⊢
    dsimp only at hne ⊢
    rw [set_matches_matches] at hne ⊢
    have hwne : (app.team_view.set_name standing.team.name).«matches» ≠ ms := by
      rw [set_name_matches]
      exact fun hx => hne hx.symm
    rw [set_matches_table_of_ne _ _ hwne]
    exact (update_scroll_cursor _ _).2

theorem select_resets_to_all_when_list_changes_witness :
    (initApp demoStandings).standings[0]? = some standingA
    ∧ StandingsApp.on_data_table_row_selected demoFetch
        (initApp demoStandings) 0
      = Except.ok (StandingsApp.step demoFetch (initApp demoStandings)
          (Event.select 0))
    ∧ (StandingsApp.step demoFetch (initApp demoStandings)
          (Event.select 0)).team_view.«matches»
        ≠ (initApp demoStandings).team_view.«matches»
    ∧ (StandingsApp.step demoFetch (initApp demoStandings)
          (Event.select 0)).team_view.table.«matches»
        = (StandingsApp.step demoFetch (initApp demoStandings)
            (Event.select 0)).team_view.«matches» := by
  have hs : (initApp demoStandings).standings[0]? = some standingA := by rfl
  have h : StandingsApp.on_data_table_row_selected demoFetch
      (initApp demoStandings) 0
      = Except.ok (StandingsApp.step demoFetch (initApp demoStandings)
          (Event.select 0)) := by rfl
  have hne : (StandingsApp.step demoFetch (initApp demoStandings)
        (Event.select 0)).team_view.«matches»
      ≠ (initApp demoStandings).team_view.«matches» := by decide
  exact ⟨hs, h, hne,
    (select_resets_to_all_when_list_changes demoFetch (initApp demoStandings)
      _ 0 standingA hs h hne).1⟩

theorem renderMatchRows_erase (m : Match) :
    renderMatchRows (eraseUnfinishedScore m) = renderMatchRows m := by
  by_cases hm : m.finished = true
  · simp [eraseUnfinishedScore, hm]
  · have hm' : (m.status == "FINISHED") = false := by
      simpa [Match.finished] using hm
    simp [eraseUnfinishedScore, renderMatchRows, Match.finished, hm']

theorem update_data_rows_erase (ms : List Match) :
    update_data_rows (ms.map eraseUnfinishedScore) = update_data_rows ms := by
  induction ms with
  | nil => rfl
  | cons m rest ih => simp [update_data_rows, renderMatchRows_erase, ih]

theorem update_data_rows_total : ∀ ms : List Match,
    (∀ m ∈ ms, m.finished = true → m.score.isSome = true) →
    (update_data_rows ms).isSome = true := by
  intro ms
  induction ms with
  | nil => intro _; rfl
  | cons m rest ih =>
    intro h
    have hrest := ih fun x hx hf => h x (List.mem_cons_of_mem m hx) hf
    have hm : (renderMatchRows m).isSome = true := by
      by_cases hf : m.finished = true
      · cases hsc : m.score with
        | none =>
          have := h m (List.mem_cons_self m rest) hf
          rw [hsc] at this
          cases this
        | some s => simp [renderMatchRows, hf, hsc]
      · have hf' : m.finished = false := by simpa using hf
        simp [renderMatchRows, hf']
    rcases Option.isSome_iff_exists.mp hm with ⟨rs, hrs⟩
    rcases Option.isSome_iff_exists.mp hrest with ⟨rest', hrest'⟩
    simp [update_data_rows, hrs, hrest']

theorem renderMatchRows_unfinished (m : Match) (h : m.finished = false) :
    renderMatchRows m
      = some [[m.utc_date, m.home_team.short_name, "", toString m.matchday],
              ["", m.away_team.short_name, "", ""]] := by
  simp [renderMatchRows, h]

/-- C10: rendering never reads the score of an unfinished match. Erasing the
score objects of all unfinished matches changes nothing about the rendered
rows; rendering succeeds whenever every finished match carries a score
object, regardless of the unfinished ones; and an unfinished match renders
with empty score cells, its `score` field untouched. -/
theorem update_data_never_reads_unplayed_score (ms : List Match) :
    update_data_rows (ms.map eraseUnfinishedScore) = update_data_rows ms
    ∧ ((∀ m ∈ ms, m.finished = true → m.score.isSome = true) →
        (update_data_rows ms).isSome = true)
    ∧ (∀ m : Match, m.finished = false →
        renderMatchRows m
          = some [[m.utc_date, m.home_team.short_name, "",
                   toString m.matchday],
                  ["", m.away_team.short_name, "", ""]]) :=
  ⟨update_data_rows_erase ms, update_data_rows_total ms,
   fun m hm => renderMatchRows_unfinished m hm⟩

theorem update_data_never_reads_unplayed_score_witness :
    (∀ m ∈ matchesA, m.finished = true → m.score.isSome = true)
    ∧ (update_data_rows matchesA).isSome = true
    ∧ matchA2.finished = false
    ∧ renderMatchRows matchA2
        = some [[matchA2.utc_date, matchA2.home_team.short_name, "",
                 toString matchA2.matchday],
                ["", matchA2.away_team.short_name, "", ""]] := by
  have h1 : ∀ m ∈ matchesA, m.finished = true → m.score.isSome = true := by
    decide
  have h2 : matchA2.finished = false := by decide
  exact ⟨h1, (update_data_never_reads_unplayed_score matchesA).2.1 h1, h2,
    (update_data_never_reads_unplayed_score matchesA).2.2 matchA2 h2⟩

theorem appInv_init (standings : List Standing) : AppInv (initApp standings) := by
  refine ⟨Or.inl rfl, rfl, rfl, ?_⟩
  intro h
  have h' : ("standings" : String) = "matches" := h
  exact absurd h' (by decide)

theorem appInv_action_team_view (app : AppState) (f : TeamView → TeamView)
    (hf : ∀ v, (f v).name = v.name ∧ (f v).«matches» = v.«matches»)
    (h : AppInv app) : AppInv { app with team_view := f app.team_view } := by
  obtain ⟨h1, h2, h3, h4⟩ := h
  refine ⟨h1, h2, h3, ?_⟩
  intro hv
  obtain ⟨st, hst, hname, hcache⟩ := h4 hv
  refine ⟨st, hst, ?_, ?_⟩
  · show (f app.team_view).name = st.team.name
    rw [(hf app.team_view).1]
    exact hname
  · show cacheLookup app.cache st.team = some (f app.team_view).«matches»
    rw [(hf app.team_view).2]
    exact hcache

theorem appInv_back (app : AppState) (h : AppInv app) :
    AppInv (StandingsApp.action_show_standings app) := by
  obtain ⟨h1, h2, h3, h4⟩ := h
  unfold StandingsApp.action_show_standings StandingsApp.set_current_view
    StandingsApp.watch_current_view
  split_ifs with hv hstd
  · exact ⟨h1, h2, h3, h4⟩
  · refine ⟨Or.inl rfl, rfl, rfl, ?_⟩
    intro hm
    have hm' : ("standings" : String) = "matches" := hm
    exact absurd hm' (by decide)
  · exact absurd rfl hstd

theorem appInv_after_select (app : AppState) (standing : Standing)
    (hmem : standing ∈ app.standings) (ms : List Match)
    (cache' : List (Team × List Match)) (fc : Nat)
    (hlk : cacheLookup cache' standing.team = some ms)
    (h : AppInv app) :
    AppInv (StandingsApp.set_current_view
      { app with
        cache := cache',
        fetch_count := fc,
        team_view := (app.team_view.set_name standing.team.name).set_matches ms }
      "matches") := by
  refine ⟨Or.inr (set_current_view_preserves _ _).2.2.2.2, ?_, ?_, ?_⟩
  · unfold StandingsApp.set_current_view StandingsApp.watch_current_view
    split_ifs with h1 h2
    · dsimp only at h1 ⊢
      simp [h.2.1, h1]
    · exact absurd h2 (by decide)
    · rfl
  · unfold StandingsApp.set_current_view StandingsApp.watch_current_view
    split_ifs with h1 h2
    · dsimp only at h1 ⊢
      simp [h.2.2.1, h1]
    · exact absurd h2 (by decide)
    · rfl
  · intro _
    refine ⟨standing, ?_, ?_, ?_⟩
    · rw [(set_current_view_preserves _ _).1]
      exact hmem
    · rw [(set_current_view_preserves _ _).2.2.1]
      dsimp only
      rw [set_matches_name, set_name_name]
    · rw [(set_current_view_preserves _ _).2.1,
        (set_current_view_preserves _ _).2.2.1]
      dsimp only
      rw [set_matches_matches]
      exact hlk

theorem appInv_step (fetch : Team → Except String (List Match)) (e : Event)
    (app : AppState) (h : AppInv app) :
    AppInv (StandingsApp.step fetch app e) := by
  cases e with
  | select i =>
    cases hs : app.standings[i]? with
    | none =>
      have herr : StandingsApp.on_data_table_row_selected fetch app i
          = Except.error "row index out of range" := by
        unfold StandingsApp.on_data_table_row_selected
        rw [hs]
      simp only [StandingsApp.step, herr]
      exact h
    | some standing =>
      cases hg : get_matches fetch app.cache standing.team with
      | error e2 =>
        have herr : StandingsApp.on_data_table_row_selected fetch app i
            = Except.error e2 := by
          rw [on_row_selected_eq fetch app i standing hs, hg]
        simp only [StandingsApp.step, herr]
        exact h
      | ok res =>
        obtain ⟨ms, cache', fetched⟩ := res
        have hok : StandingsApp.on_data_table_row_selected fetch app i
            = Except.ok (StandingsApp.set_current_view
              { app with
                cache := cache',
                fetch_count := app.fetch_count + (if fetched then 1 else 0),
                team_view :=
                  (app.team_view.set_name standing.team.name).set_matches ms }
              "matches") := by
          rw [on_row_selected_eq fetch app i standing hs, hg]
        simp only [StandingsApp.step, hok]
        exact appInv_after_select app standing
          (mem_of_getElem?_eq_some _ i standing hs) ms cache'
          (app.fetch_count + (if fetched then 1 else 0))
          (get_matches_ok_lookup fetch app.cache standing.team ms cache'
            fetched hg) h
  | filterPlayed => exact appInv_action_team_view app _ (fun v => ⟨rfl, rfl⟩) h
  | filterUnplayed => exact appInv_action_team_view app _ (fun v => ⟨rfl, rfl⟩) h
  | showAll => exact appInv_action_team_view app _ (fun v => ⟨rfl, rfl⟩) h
  | back => exact appInv_back app h

/-- C9: in every reachable application state, the team (match) view is
displayed only with an active team: it is hidden at startup and whenever
`current_view` is `"standings"`, and whenever it is displayed the view tag
is `"matches"` and the team view's name and match list were set by a
selection — the name is that of a standing's team whose match list sits in
the cache and is exactly the list on display. -/
theorem matches_view_requires_active_team (s : AppState) (h : Reachable s) :
    (∀ standings, (initApp standings).team_view_display = false)
    ∧ (s.current_view = "standings" → s.team_view_display = false)
    ∧ (s.team_view_display = true →
        s.current_view = "matches"
        ∧ ∃ st ∈ s.standings, s.team_view.name = st.team.name
            ∧ cacheLookup s.cache st.team = some s.team_view.«matches») := by
  have hInv : AppInv s := by
    induction h with
    | init standings => exact appInv_init standings
    | step fetch e app _ ih => exact appInv_step fetch e app ih
  refine ⟨fun _ => rfl, ?_, ?_⟩
  · intro hv
    rw [hInv.2.1, hv]
    decide
  · intro hd
    have hv : s.current_view = "matches" := by
      have := hInv.2.1
      rw [hd] at this
      exact of_decide_eq_true this.symm
    exact ⟨hv, hInv.2.2.2 hv⟩

theorem matches_view_requires_active_team_witness :
    Reachable (initApp demoStandings)
    ∧ ((initApp demoStandings).current_view = "standings" →
        (initApp demoStandings).team_view_display = false) :=
  ⟨Reachable.init demoStandings,
   (matches_view_requires_active_team (initApp demoStandings)
      (Reachable.init demoStandings)).2.1⟩
